import Mathlib

/-!
Verification of the OrbitGuardAI conjunction-analysis engine
(`src/orbit_engine.py`, `src/collision_watch.py`) against its
natural-language specification.

The Python code works on IEEE floats; following the usual shallow-embedding
convention, real arithmetic is modelled exactly over `ℝ` (trigonometry,
square roots) so that the algebraic and ordering structure of every branch
of the source is preserved.  `numpy.argsort` is modelled by insertion sort
(any sorting permutation; tie order is irrelevant to the statements proved
here).  Python's `%` on floats and `int()` truncation are modelled by
`pymod` and `pytrunc`.  Python dictionaries of orbital elements become the
structure `OrbitalElements`; the skyfield-backed element *computation*
(`ScientificSatellite.calculate_elements` with a non-`None` time) is an
external collaborator and is out of scope: objects carry their current
elements, exactly as in every `t = None` code path of the engine.
-/

noncomputable section

open Real

/-- 3-vector over ℝ, modelling the `numpy` length-3 arrays of the source. -/
structure Vec3 where
  x : ℝ
  y : ℝ
  z : ℝ

/-- Model of `np.cross` for 3-vectors. -/
def cross3 (a b : Vec3) : Vec3 :=
  ⟨a.y * b.z - a.z * b.y, a.z * b.x - a.x * b.z, a.x * b.y - a.y * b.x⟩

/-- Model of `np.linalg.norm` for 3-vectors. -/
def norm3 (v : Vec3) : ℝ :=
  Real.sqrt (v.x ^ 2 + v.y ^ 2 + v.z ^ 2)

/-- Componentwise division of a vector by a scalar (`L / norm_L`). -/
def vdiv3 (v : Vec3) (s : ℝ) : Vec3 :=
  ⟨v.x / s, v.y / s, v.z / s⟩

/-- Scalar multiple of a vector (`L_unit * direction`). -/
def smul3 (s : ℝ) (v : Vec3) : Vec3 :=
  ⟨s * v.x, s * v.y, s * v.z⟩

/-- 3×3 matrix of reals, modelling the rotation matrices of the source. -/
structure Mat3 where
  r11 : ℝ
  r12 : ℝ
  r13 : ℝ
  r21 : ℝ
  r22 : ℝ
  r23 : ℝ
  r31 : ℝ
  r32 : ℝ
  r33 : ℝ

/-- Model of `Q.T @ d`: multiplication of the transpose of `Q` with a vector. -/
def matTvec (Q : Mat3) (d : Vec3) : Vec3 :=
  ⟨Q.r11 * d.x + Q.r21 * d.y + Q.r31 * d.z,
   Q.r12 * d.x + Q.r22 * d.y + Q.r32 * d.z,
   Q.r13 * d.x + Q.r23 * d.y + Q.r33 * d.z⟩

/-- Model of `np.arctan2 y x`, the angle of the point `(x, y)` in `(-π, π]`,
modelled by the argument of the complex number `x + i·y`. -/
def atan2 (y x : ℝ) : ℝ :=
  Complex.arg ⟨x, y⟩

/-- The osculating Keplerian element record stored in
`ScientificSatellite.orbital_elements` (`orbit_engine.py` lines 30–38):
semi-major axis `a` (km), eccentricity `e`, inclination `i` (rad),
RAAN `om` (rad), argument of periapsis `w` (rad), true anomaly `v` (rad),
mean motion `n` (rad/s). -/
structure OrbitalElements where
  a : ℝ
  e : ℝ
  i : ℝ
  om : ℝ
  w : ℝ
  v : ℝ
  n : ℝ

instance : Inhabited OrbitalElements :=
  ⟨⟨0, 0, 0, 0, 0, 0, 0⟩⟩

/-- Earth gravitational parameter km³/s² (`KeplerianEngine.__init__`). -/
def muEarth : ℝ := 398600.4418

/-- Source `KeplerianEngine.get_orbital_plane_normal`:
`h = [sin(i)sin(om), -sin(i)cos(om), cos(i)]`. -/
def get_orbital_plane_normal (i om : ℝ) : Vec3 :=
  ⟨Real.sin i * Real.sin om, -Real.sin i * Real.cos om, Real.cos i⟩

/-- Source `KeplerianEngine.find_intersection_line`: the unit vector along the
intersection of the two orbital planes, or `none` when `‖h1 × h2‖ < 1e-6`. -/
def find_intersection_line (el1 el2 : OrbitalElements) : Option Vec3 :=
  let h1 := get_orbital_plane_normal el1.i el1.om
  let h2 := get_orbital_plane_normal el2.i el2.om
  let L := cross3 h1 h2
  let norm_L := norm3 L
  if norm_L < 0.000001 then none else some (vdiv3 L norm_L)

/-- Source `KeplerianEngine.get_perifocal_rotation_matrix`: rotation from the
perifocal frame to ECI, built from `(i, om, w)`. -/
def get_perifocal_rotation_matrix (i om w : ℝ) : Mat3 :=
  { r11 := Real.cos om * Real.cos w - Real.sin om * Real.sin w * Real.cos i
    r12 := -Real.cos om * Real.sin w - Real.sin om * Real.cos w * Real.cos i
    r13 := Real.sin om * Real.sin i
    r21 := Real.sin om * Real.cos w + Real.cos om * Real.sin w * Real.cos i
    r22 := -Real.sin om * Real.sin w + Real.cos om * Real.cos w * Real.cos i
    r23 := -Real.cos om * Real.sin i
    r31 := Real.sin w * Real.sin i
    r32 := Real.cos w * Real.sin i
    r33 := Real.cos i }

/-- True anomaly of an orbit at a node direction: the node vector is taken
to the perifocal frame by `Q.T`, and `v = atan2(y, x)` there
(`calculate_conjunction_nodes`, steps 3–4). -/
def trueAnomalyAtNode (el : OrbitalElements) (d : Vec3) : ℝ :=
  let Q := get_perifocal_rotation_matrix el.i el.om el.w
  let r_perifocal := matTvec Q d
  atan2 r_perifocal.y r_perifocal.x

/-- Orbital radius at a node direction: `r = a(1-e²)/(1 + e cos v)`
(`calculate_conjunction_nodes`, steps 3–4). -/
def radiusAtNode (el : OrbitalElements) (d : Vec3) : ℝ :=
  el.a * (1 - el.e ^ 2) / (1 + el.e * Real.cos (trueAnomalyAtNode el d))

/-- Source `KeplerianEngine.check_apogee_perigee_filter`: the height bands of two
objects overlap, `max(p1, p2) ≤ min(A1, A2) + tolerance_km`. -/
def check_apogee_perigee_filter (tol : ℝ) (el1 el2 : OrbitalElements) : Prop :=
  max (el1.a * (1 - el1.e)) (el2.a * (1 - el2.e)) ≤
    min (el1.a * (1 + el1.e)) (el2.a * (1 + el2.e)) + tol

instance (tol : ℝ) (el1 el2 : OrbitalElements) :
    Decidable (check_apogee_perigee_filter tol el1 el2) :=
  Real.decidableLE _ _

/-- A conjunction node record as appended by `calculate_conjunction_nodes`. -/
structure ConjunctionNode where
  node_vector : Vec3
  distance_diff_km : ℝ
  lat : ℝ
  lon : ℝ
  f_nc : ℝ
  T_c_days : ℝ

/-- The body of the per-direction loop of `calculate_conjunction_nodes`:
radii of both orbits at the node direction, the `|r1-r2| ≤ tolerance` test,
the `|n1-n2| > 1e-9` co-period guard, the `T_c_days ≥ 0.2` synodic band,
and the node record with `f_nc = 30 / T_c_days`.  (The first assignment
`f_nc = 1/(T_c_days/30)` in the source is dead: it is immediately
overwritten by `f_nc = 30/T_c_days`.) -/
def nodeForDirection (tol : ℝ) (el1 el2 : OrbitalElements) (node_vector : Vec3) :
    Option ConjunctionNode :=
  let r1 := radiusAtNode el1 node_vector
  let r2 := radiusAtNode el2 node_vector
  let distance_diff := |r1 - r2|
  if distance_diff ≤ tol then
    if 0.000000001 < |el1.n - el2.n| then
      let T_c := 2 * Real.pi / |el1.n - el2.n|
      let T_c_days := T_c / 86400
      if 0.2 ≤ T_c_days then
        some { node_vector := node_vector
               distance_diff_km := distance_diff
               lat := Real.arcsin node_vector.z * (180 / Real.pi)
               lon := atan2 node_vector.y node_vector.x * (180 / Real.pi)
               f_nc := 30 / T_c_days
               T_c_days := T_c_days }
      else none
    else none
  else none

/-- Source `KeplerianEngine.calculate_conjunction_nodes`: apogee/perigee filter,
plane-intersection line, then a node test along `+L̂` and `-L̂`. -/
def calculate_conjunction_nodes (tol : ℝ) (el1 el2 : OrbitalElements) :
    List ConjunctionNode :=
  if check_apogee_perigee_filter tol el1 el2 then
    match find_intersection_line el1 el2 with
    | none => []
    | some L_unit =>
        List.filterMap (fun direction =>
          nodeForDirection tol el1 el2 (smul3 direction L_unit)) [1, -1]
  else []

/-- Python's float `%` operation: `x % m = x - m·⌊x/m⌋` (result has the
sign of `m`); used for the `% (2*np.pi)` wraps in `J2Propagator.propagate`. -/
def pymod (x m : ℝ) : ℝ :=
  x - m * ⌊x / m⌋

/-- Python's `int()` float conversion: truncation toward zero. -/
def pytrunc (q : ℝ) : ℤ :=
  if q < 0 then ⌈q⌉ else ⌊q⌋

/-- Constant of `J2Propagator.__init__`: the J2 coefficient. -/
def J2coef : ℝ := 0.00108263

/-- Constant of `J2Propagator.__init__`: Earth radius, km. -/
def ReEarth : ℝ := 6378.137

/-- True anomaly to eccentric anomaly by the half-angle relation
(`E = 2*arctan(sqrt((1-e)/(1+e)) * tan(v/2))` in `J2Propagator.propagate`). -/
def nuToE (e v : ℝ) : ℝ :=
  2 * Real.arctan (Real.sqrt ((1 - e) / (1 + e)) * Real.tan (v / 2))

/-- Eccentric anomaly to mean anomaly (`M = E - e*sin(E)`). -/
def EToM (e E : ℝ) : ℝ :=
  E - e * Real.sin E

/-- The fixed-point Kepler iteration of `J2Propagator.propagate`:
`E ← M + e·sin(E)` starting from `E = M`, for a fixed number of rounds
(the source runs exactly 5). -/
def keplerIter (M e : ℝ) : ℕ → ℝ
  | 0 => M
  | k + 1 => M + e * Real.sin (keplerIter M e k)

/-- Eccentric anomaly back to true anomaly
(`v = 2*arctan(sqrt((1+e)/(1-e)) * tan(E/2))`). -/
def EToNu (e E : ℝ) : ℝ :=
  2 * Real.arctan (Real.sqrt ((1 + e) / (1 - e)) * Real.tan (E / 2))

/-- The anomaly round trip performed inside `J2Propagator.propagate` when
the mean anomaly is left unchanged (`Δt = 0`): `ν → E → M → E → ν`, with
the Kepler equation solved by the fixed 5-round iteration. -/
def anomalyRoundTrip (e v : ℝ) : ℝ :=
  EToNu e (keplerIter (EToM e (nuToE e v)) e 5)

/-- Source `J2Propagator.propagate` on an element record: J2 secular rates for
RAAN and argument of perigee, the altitude-ramp decay heuristic on `a`,
mean-motion recomputation, and the anomaly update via Kepler's equation.
(The `sat`-object wrapper returns `None` when no elements are stored; that
guard is captured by `propagate_opt` below.) -/
def propagate (el : OrbitalElements) (minutes : ℝ) : OrbitalElements :=
  let a := el.a
  let e := el.e
  let i := el.i
  let n_calc := Real.sqrt (muEarth / a ^ 3)
  let p := a * (1 - e ^ 2)
  let term := -1.5 * n_calc * J2coef * (ReEarth / p) ^ 2
  let om_dot := term * Real.cos i
  let w_dot := term * (2.5 * Real.sin i ^ 2 - 2)
  let M_dot := n_calc
  let h := a - ReEarth
  let decay_factor := if h < 500 then -0.000001 * (500 - h) else 0
  let dt := minutes * 60
  let new_a := a + decay_factor * dt
  let new_om := pymod (el.om + om_dot * dt) (2 * Real.pi)
  let new_w := pymod (el.w + w_dot * dt) (2 * Real.pi)
  let new_n := Real.sqrt (muEarth / new_a ^ 3)
  let E := nuToE e el.v
  let M := EToM e E
  let M_new := M + M_dot * dt
  let E_new := keplerIter M_new e 5
  let v_new := EToNu e E_new
  { a := new_a, e := e, i := i, om := new_om, w := new_w, v := v_new, n := new_n }

/-- The `if el is None: return None` guard of `J2Propagator.propagate`. -/
def propagate_opt (el : Option OrbitalElements) (minutes : ℝ) : Option OrbitalElements :=
  match el with
  | none => none
  | some el => some (propagate el minutes)

/-- A concrete valid element set (`a > 0`, `e ∈ [0,1)`, `i ∈ [0,π]`,
`om, w ∈ [0,2π)`, `n > 0`) whose stored mean motion `n = 1` differs from
`√(μ/a³)`. -/
def elC5 : OrbitalElements :=
  ⟨7000, 0, 0, 0, 0, 0, 1⟩

/-- A concrete circular polar orbit (`a = 7000`, `i = π/2`, RAAN `0`),
synodic partner of `elW2`/`elW3`. -/
def elW1 : OrbitalElements :=
  ⟨7000, 0, Real.pi / 2, 0, 0, 0, Real.pi / 43200⟩

/-- A concrete circular polar orbit with RAAN `π/2` and a mean motion
differing from `elW1` by `2π/86400 rad/s` (synodic period exactly 1 day). -/
def elW2 : OrbitalElements :=
  ⟨7000, 0, Real.pi / 2, Real.pi / 2, 0, 0, Real.pi / 21600⟩

/-- Like `elW2` but with `a = 7005`: at every node its radius differs from
`elW1`'s by exactly 5 km. -/
def elW3 : OrbitalElements :=
  ⟨7005, 0, Real.pi / 2, Real.pi / 2, 0, 0, Real.pi / 21600⟩

/-- Index pairs `(i, j)` with `i < j < n`: the index view of
`itertools.combinations(satellites, 2)` in
`calculate_population_criticality` and of brute-force testing of all
C(N,2) pairs. -/
def pairsIdx (n : ℕ) : List (ℕ × ℕ) :=
  (List.range n).flatMap (fun i =>
    ((List.range n).filter (fun j => decide (i < j))).map (fun j => (i, j)))

/-- Comparison of `(index, perigee, apogee)` triples by perigee: the sort
key of `np.argsort(perigees)` in `vectorized_apogee_perigee_filter`. -/
def bandLE (x y : ℕ × ℝ × ℝ) : Prop :=
  x.2.1 ≤ y.2.1

instance : DecidableRel bandLE :=
  fun _ _ => Real.decidableLE _ _

instance : IsTotal (ℕ × ℝ × ℝ) bandLE :=
  ⟨fun a b => le_total a.2.1 b.2.1⟩

instance : IsTrans (ℕ × ℝ × ℝ) bandLE :=
  ⟨fun _ _ _ h1 h2 => le_trans h1 h2⟩

/-- Step 1 of `vectorized_apogee_perigee_filter`: the `(index, perigee,
apogee)` triples `p_i = a_i(1-e_i)`, `A_i = a_i(1+e_i)` of the population. -/
def bandsOf (sats : List OrbitalElements) : List (ℕ × ℝ × ℝ) :=
  (List.range sats.length).map (fun k =>
    (k, (sats.getD k default).a * (1 - (sats.getD k default).e),
        (sats.getD k default).a * (1 + (sats.getD k default).e)))

/-- Step 3 of `vectorized_apogee_perigee_filter`, the sweep-and-prune loop
over the perigee-sorted triples: for each object in sorted order, scan
forward through the higher-perigee objects while
`perigee_j ≤ apogee_i + tolerance`, emitting the index pair, and `break`
at the first violation (here: `takeWhile`). -/
def sweepPairs (tol : ℝ) : List (ℕ × ℝ × ℝ) → List (ℕ × ℕ)
  | [] => []
  | x :: rest =>
      ((rest.takeWhile (fun y => decide (y.2.1 ≤ x.2.2 + tol))).map
        (fun y => (x.1, y.1)))
        ++ sweepPairs tol rest

/-- Source `KeplerianEngine.vectorized_apogee_perigee_filter`: extract perigee and
apogee of every object, sort by perigee (`np.argsort`, modelled by
insertion sort — the theorems below hold for any sorting permutation since
they only use sortedness and permutation), then sweep and prune.  Returned
pairs are pairs of positions in the input list. -/
def vectorized_apogee_perigee_filter (tol : ℝ) (sats : List OrbitalElements) :
    List (ℕ × ℕ) :=
  sweepPairs tol (List.insertionSort bandLE (bandsOf sats))

/-- Brute force: `check_apogee_perigee_filter` applied to all C(N,2)
position pairs. -/
def brutePairs (tol : ℝ) (sats : List OrbitalElements) : List (ℕ × ℕ) :=
  (pairsIdx sats.length).filter (fun p =>
    decide (check_apogee_perigee_filter tol (sats.getD p.1 default)
      (sats.getD p.2 default)))

/-- Membership of an unordered pair in a list of index pairs. -/
def pairMemUnordered (L : List (ℕ × ℕ)) (a b : ℕ) : Prop :=
  (a, b) ∈ L ∨ (b, a) ∈ L

/-- Predicate: `u` occurs strictly before `v` in the list `L`. -/
def orderedMem {α : Type} (L : List α) (u v : α) : Prop :=
  ∃ l1 l2, L = l1 ++ u :: l2 ∧ v ∈ l2

/-- Source `ScientificSatellite` state relevant to the engine: current
`orbital_elements`, accumulated `criticality_score` and
`nodal_frequencies` (`orbit_engine.py` lines 10–17; identity is the list
position, and the skyfield wrapper is an external collaborator). -/
structure ScientificSatellite where
  orbital_elements : OrbitalElements
  criticality_score : ℝ
  nodal_frequencies : List ℝ

instance : Inhabited ScientificSatellite :=
  ⟨⟨default, 0, []⟩⟩

/-- In-place update of the element at position `k` of a list (Python
mutation of a shared object reached through the list). -/
def updAt {α : Type} (k : ℕ) (f : α → α) : List α → List α
  | [] => []
  | x :: xs =>
      match k with
      | 0 => f x :: xs
      | k + 1 => x :: updAt k f xs

/-- The per-node mutation of `calculate_population_criticality`:
`criticality_score += f_nc` and `nodal_frequencies.append(f_nc)`. -/
def addNodeScore (f : ℝ) (s : ScientificSatellite) : ScientificSatellite :=
  { s with criticality_score := s.criticality_score + f
           nodal_frequencies := s.nodal_frequencies ++ [f] }

/-- Processing of one candidate pair in `calculate_population_criticality`:
compute the conjunction nodes of the pair and add each node's `f_nc` to
both participating satellites. -/
def applyPair (tol : ℝ) (sats : List ScientificSatellite) (p : ℕ × ℕ) :
    List ScientificSatellite :=
  (calculate_conjunction_nodes tol (sats.getD p.1 default).orbital_elements
      (sats.getD p.2 default).orbital_elements).foldl
    (fun ss nd => updAt p.2 (addNodeScore nd.f_nc) (updAt p.1 (addNodeScore nd.f_nc) ss))
    sats

/-- Source `KeplerianEngine.calculate_population_criticality`: reset all scores
and frequency lists, then fold the per-pair update over all C(N,2) pairs
(`itertools.combinations`). -/
def calculate_population_criticality (tol : ℝ) (sats : List ScientificSatellite) :
    List ScientificSatellite :=
  (pairsIdx sats.length).foldl (applyPair tol)
    (sats.map (fun s => { s with criticality_score := 0, nodal_frequencies := [] }))

/-- Sum of `f_nc` over the qualifying conjunction nodes of one pair: the
specification observable that the criticality aggregate is compared to. -/
def nodeFncSum (tol : ℝ) (sats : List ScientificSatellite) (p : ℕ × ℕ) : ℝ :=
  ((calculate_conjunction_nodes tol (sats.getD p.1 default).orbital_elements
      (sats.getD p.2 default).orbital_elements).map (fun nd => nd.f_nc)).sum

/-- A one-object population whose object carries a stale nonzero score. -/
def satsC4 : List ScientificSatellite :=
  [⟨⟨7000, 0, 0, 0, 0, 0, 1⟩, 5, [3]⟩]

/-- A risk event of `RiskAnalyzer.calculate_risk_timeline` (satellite
names replaced by list positions). -/
structure RiskEvent where
  day : ℝ
  sat1 : ℕ
  sat2 : ℕ
  distance_km : ℝ
  f_nc : ℝ

/-- One evaluation step of the forecast loop: vectorized candidate pruning
on the current snapshot, conjunction nodes per candidate pair, one event
per qualifying node tagged with the current day offset. -/
def stepEvents (tol : ℝ) (els : List OrbitalElements) (day : ℝ) : List RiskEvent :=
  (vectorized_apogee_perigee_filter tol els).flatMap (fun p =>
    (calculate_conjunction_nodes tol (els.getD p.1 default) (els.getD p.2 default)).map
      (fun nd => ⟨day, p.1, p.2, nd.distance_diff_km, nd.f_nc⟩))

/-- The body of the forecast loop (`for step in range(steps + 1)`): for
`step > 0` every object's *current* elements are first propagated by
`step_hours*60` minutes (compounding step over step); then conjunctions
are evaluated on the advanced snapshot and appended as events tagged
`day = step*step_hours/24`. -/
def stepFold (tol H : ℝ) (st : List OrbitalElements × List RiskEvent) (step : ℕ) :
    List OrbitalElements × List RiskEvent :=
  let els := if step = 0 then st.1 else st.1.map (fun el => propagate el (H * 60))
  (els, st.2 ++ stepEvents tol els ((step * H) / 24))

/-- Source `RiskAnalyzer.calculate_risk_timeline`: `steps = int(D*24/H)` and a
loop over `range(steps + 1)` accumulating events; `none` models the
`ZeroDivisionError` Python raises in the `steps` computation when
`step_hours = 0`.  Objects are reduced to their element records (the
source's shallow copies carry names only). -/
def calculate_risk_timeline (tol : ℝ) (sats : List OrbitalElements)
    (duration_days step_hours : ℝ) : Option (List RiskEvent) :=
  if step_hours = 0 then none
  else
    let steps : ℤ := pytrunc (duration_days * 24 / step_hours)
    some (((List.range (steps + 1).toNat).foldl (stepFold tol step_hours) (sats, [])).2)

/-- The four risk severities of `CollisionWatchEngine.get_risk_level` (the
hex colour string returned alongside each level is presentation data,
omitted here). -/
inductive RiskLevel where
  | CRITICAL
  | HIGH
  | MEDIUM
  | LOW
deriving DecidableEq

/-- Source `CollisionWatchEngine.get_risk_level`: classification of an event's
distance by fixed thresholds, with `LOW` as the catch-all `else` branch. -/
def get_risk_level (distance_km : ℝ) : RiskLevel :=
  if distance_km < 0.5 then RiskLevel.CRITICAL
  else if distance_km < 1.0 then RiskLevel.HIGH
  else if distance_km < 2.5 then RiskLevel.MEDIUM
  else RiskLevel.LOW

end

/-- Cross product of a vector with itself vanishes. -/
theorem cross3_self (v : Vec3) : cross3 v v = ⟨0, 0, 0⟩ := by
  simp [cross3, mul_comm]

/-- The zero vector has norm 0. -/
theorem norm3_zero : norm3 ⟨0, 0, 0⟩ = 0 := by
  simp [norm3]

/-- Coplanar orbits give no intersection line. -/
theorem find_intersection_line_coplanar (el1 el2 : OrbitalElements)
    (hi : el1.i = el2.i) (hom : el1.om = el2.om) :
    find_intersection_line el1 el2 = none := by
  simp only [find_intersection_line]
  rw [hi, hom, cross3_self, norm3_zero]
  norm_num

/-- C3: for every pair of objects whose orbital planes have identical
inclination and identical RAAN (so the cross product of the two plane
normals has norm below 1e-6), `calculate_conjunction_nodes` returns the
empty list, regardless of the other orbital elements. -/
theorem coplanar_orbits_yield_no_nodes (tol : ℝ) (el1 el2 : OrbitalElements)
    (hi : el1.i = el2.i) (hom : el1.om = el2.om) :
    calculate_conjunction_nodes tol el1 el2 = [] := by
  unfold calculate_conjunction_nodes
  rw [find_intersection_line_coplanar el1 el2 hi hom]
  split <;> rfl

/-- C3 witness: a concrete coplanar pair (identical elements) yields no
conjunction nodes. -/
theorem coplanar_orbits_yield_no_nodes_witness :
    calculate_conjunction_nodes 0.2 ⟨7000, 0, 1, 2, 0, 0, 1⟩ ⟨7000, 0, 1, 2, 3, 4, 5⟩ = [] :=
  coplanar_orbits_yield_no_nodes 0.2 _ _ rfl rfl

/-- Python float modulo returns its argument when it already lies in
`[0, m)`. -/
theorem pymod_eq_self {x m : ℝ} (h1 : 0 ≤ x) (h2 : x < m) : pymod x m = x := by
  have hm : 0 < m := lt_of_le_of_lt h1 h2
  have hfl : ⌊x / m⌋ = 0 :=
    Int.floor_eq_zero_iff.mpr ⟨div_nonneg h1 hm.le, (div_lt_one hm).mpr h2⟩
  unfold pymod
  rw [hfl]
  push_cast
  ring

/-- With `e = 0`, the fixed-point Kepler iteration stays at `M`. -/
theorem keplerIter_e_zero (M : ℝ) : ∀ k, keplerIter M 0 k = M := by
  intro k
  induction k with
  | zero => rfl
  | succ k ih => simp [keplerIter, ih]

/-- Doubled arctangent of the half-angle tangent is the identity on
`(-π, π)`. -/
theorem arctan_tan_double_half (v : ℝ) (h1 : -Real.pi < v) (h2 : v < Real.pi) :
    2 * Real.arctan (Real.tan (v / 2)) = v := by
  rw [Real.arctan_tan (by linarith) (by linarith)]
  ring

/-- The anomaly conversions collapse for circular orbits. -/
theorem nuToE_e_zero (v : ℝ) : nuToE 0 v = 2 * Real.arctan (Real.tan (v / 2)) := by
  unfold nuToE
  norm_num

/-- The reverse anomaly conversion collapses for circular orbits. -/
theorem EToNu_e_zero (E : ℝ) : EToNu 0 E = 2 * Real.arctan (Real.tan (E / 2)) := by
  unfold EToNu
  norm_num

/-- The full `ν → E → M → E → ν` round trip is the identity for `e = 0`
and `ν` in the principal range `(-π, π)`. -/
theorem anomalyRoundTrip_circular (v : ℝ) (h1 : -Real.pi < v) (h2 : v < Real.pi) :
    anomalyRoundTrip 0 v = v := by
  have hE : nuToE 0 v = v := by rw [nuToE_e_zero]; exact arctan_tan_double_half v h1 h2
  have hM : EToM 0 v = v := by simp [EToM]
  unfold anomalyRoundTrip
  rw [hE, hM, keplerIter_e_zero, EToNu_e_zero]
  exact arctan_tan_double_half v h1 h2

/-- C9 counterexample: at the true anomaly `ν = 3π/2` of a circular orbit
(`e = 0`), the anomaly round trip performed inside `propagate` does not
return `ν`: it returns `-π/2`, the representative of `ν` modulo `2π` in the
principal branch of the half-angle/arctangent pair. -/
theorem anomaly_round_trip_moves_three_half_pi :
    anomalyRoundTrip 0 (3 * Real.pi / 2) ≠ 3 * Real.pi / 2 := by
  have htan : Real.tan (3 * Real.pi / 2 / 2) = -1 := by
    have h34 : 3 * Real.pi / 2 / 2 = Real.pi - Real.pi / 4 := by ring
    rw [h34, Real.tan_pi_sub, Real.tan_pi_div_four]
  have hE : nuToE 0 (3 * Real.pi / 2) = -(Real.pi / 2) := by
    rw [nuToE_e_zero, htan]
    rw [show (-1 : ℝ) = -(1 : ℝ) from rfl, Real.arctan_neg, Real.arctan_one]
    ring
  have hval : anomalyRoundTrip 0 (3 * Real.pi / 2) = -(Real.pi / 2) := by
    unfold anomalyRoundTrip
    rw [hE]
    have hM : EToM 0 (-(Real.pi / 2)) = -(Real.pi / 2) := by simp [EToM]
    rw [hM, keplerIter_e_zero, EToNu_e_zero]
    exact arctan_tan_double_half (-(Real.pi / 2))
      (by linarith [Real.pi_pos]) (by linarith [Real.pi_pos])
  rw [hval]
  intro h
  have : Real.pi = 0 := by linarith
  exact Real.pi_ne_zero this

/-- C9 (amended): for every true anomaly `ν` in the principal range
`(-π, π)` of a circular orbit (`e = 0`), the anomaly round trip performed
inside `propagate` — `ν` to eccentric anomaly via the half-angle relation,
`E` to mean anomaly `M = E - e·sin E`, fixed-point Kepler solve back to
`E`, and `E` back to `ν` — returns `ν` unchanged (exactly, in real
arithmetic).  Outside that range the round trip instead returns the
`2π`-congruent representative in the principal branch, as the
counterexample at `ν = 3π/2` shows. -/
theorem anomaly_round_trip_identity_principal (v : ℝ)
    (h1 : -Real.pi < v) (h2 : v < Real.pi) :
    anomalyRoundTrip 0 v = v :=
  anomalyRoundTrip_circular v h1 h2

/-- C9 witness: the round trip is the identity at `ν = π/2`. -/
theorem anomaly_round_trip_identity_principal_witness :
    anomalyRoundTrip 0 (Real.pi / 2) = Real.pi / 2 :=
  anomaly_round_trip_identity_principal (Real.pi / 2)
    (by linarith [Real.pi_pos]) (by linarith [Real.pi_pos])

/-- Propagating by zero minutes: every field evaluated in closed form.
`a`, `e`, `i` are returned unchanged, `om`/`w` pass through the float
modulo, `v` undergoes the anomaly round trip, and `n` is recomputed as
`√(μ/a³)` regardless of the stored mean motion. -/
theorem propagate_zero_eq (el : OrbitalElements) :
    propagate el 0 =
      { a := el.a, e := el.e, i := el.i,
        om := pymod el.om (2 * Real.pi), w := pymod el.w (2 * Real.pi),
        v := anomalyRoundTrip el.e el.v,
        n := Real.sqrt (muEarth / el.a ^ 3) } := by
  simp only [propagate, anomalyRoundTrip, OrbitalElements.mk.injEq]
  norm_num

/-- C5 counterexample: a concrete object with valid elements (`a = 7000`,
`e = 0`, `i = om = w = v = 0`, `n = 1`) for which propagating by zero
minutes does **not** return elements equal to the input in every field:
the mean-motion field `n` is recomputed as `√(μ/a³) ≠ 1`. -/
theorem propagate_zero_changes_mean_motion :
    (0 < elC5.a ∧ 0 ≤ elC5.e ∧ elC5.e < 1 ∧ 0 ≤ elC5.om ∧ elC5.om < 2 * Real.pi ∧
      0 ≤ elC5.w ∧ elC5.w < 2 * Real.pi ∧ 0 < elC5.n) ∧
    (propagate elC5 0).n ≠ elC5.n := by
  constructor
  · exact ⟨by norm_num [elC5], by norm_num [elC5], by norm_num [elC5], by norm_num [elC5],
      by rw [show elC5.om = 0 from rfl]; positivity, by norm_num [elC5],
      by rw [show elC5.w = 0 from rfl]; positivity, by norm_num [elC5]⟩
  · have h : (propagate elC5 0).n = Real.sqrt (muEarth / elC5.a ^ 3) := by
      rw [propagate_zero_eq]
    rw [h, show elC5.n = 1 from rfl, show elC5.a = 7000 from rfl]
    rw [Ne, Real.sqrt_eq_one]
    norm_num [muEarth]

/-- C5 (amended): propagating a valid element set (`om, w ∈ [0, 2π)`) by
zero minutes leaves `a`, `e`, `i`, `om`, `w` numerically unchanged, but
returns `n = √(μ/a³)` — which differs from the input whenever the stored
mean motion is not exactly that value (see the counterexample) — and
returns for `ν` the anomaly round-trip value, which equals the input `ν`
for a circular orbit with `ν` in the principal range `(-π, π)`. -/
theorem propagate_zero_minutes_amended (el : OrbitalElements)
    (hom1 : 0 ≤ el.om) (hom2 : el.om < 2 * Real.pi)
    (hw1 : 0 ≤ el.w) (hw2 : el.w < 2 * Real.pi) :
    (propagate el 0).a = el.a ∧ (propagate el 0).e = el.e ∧
    (propagate el 0).i = el.i ∧ (propagate el 0).om = el.om ∧
    (propagate el 0).w = el.w ∧
    (propagate el 0).n = Real.sqrt (muEarth / el.a ^ 3) ∧
    (propagate el 0).v = anomalyRoundTrip el.e el.v ∧
    (el.e = 0 → -Real.pi < el.v → el.v < Real.pi → (propagate el 0).v = el.v) := by
  rw [propagate_zero_eq]
  refine ⟨rfl, rfl, rfl, pymod_eq_self hom1 hom2, pymod_eq_self hw1 hw2, rfl, rfl, ?_⟩
  intro he h1 h2
  show anomalyRoundTrip el.e el.v = el.v
  rw [he]
  exact anomalyRoundTrip_circular el.v h1 h2

/-- C5 witness: the amended statement instantiated at the concrete valid
element set `elC5`. -/
theorem propagate_zero_minutes_amended_witness :
    (propagate elC5 0).a = elC5.a ∧ (propagate elC5 0).e = elC5.e ∧
    (propagate elC5 0).i = elC5.i ∧ (propagate elC5 0).om = elC5.om ∧
    (propagate elC5 0).w = elC5.w ∧
    (propagate elC5 0).n = Real.sqrt (muEarth / elC5.a ^ 3) ∧
    (propagate elC5 0).v = anomalyRoundTrip elC5.e elC5.v ∧
    (elC5.e = 0 → -Real.pi < elC5.v → elC5.v < Real.pi → (propagate elC5 0).v = elC5.v) :=
  propagate_zero_minutes_amended elC5
    (by norm_num [elC5])
    (by rw [show elC5.om = 0 from rfl]; positivity)
    (by norm_num [elC5])
    (by rw [show elC5.w = 0 from rfl]; positivity)

/-- C10: for every element set and every time step, `propagate` returns
elements whose eccentricity `e` and inclination `i` are exactly the input
values; only `a`, `om`, `w`, `v`, `n` are ever modified. -/
theorem propagate_preserves_e_and_i (el : OrbitalElements) (minutes : ℝ) :
    (propagate el minutes).e = el.e ∧ (propagate el minutes).i = el.i := by
  constructor <;> simp [propagate]

/-- When all three qualification tests pass at a node direction,
`nodeForDirection` emits exactly the node record of the source. -/
theorem nodeForDirection_eq_some (tol : ℝ) (el1 el2 : OrbitalElements) (d : Vec3)
    (h1 : |radiusAtNode el1 d - radiusAtNode el2 d| ≤ tol)
    (h2 : 0.000000001 < |el1.n - el2.n|)
    (h3 : 0.2 ≤ 2 * Real.pi / |el1.n - el2.n| / 86400) :
    nodeForDirection tol el1 el2 d =
      some { node_vector := d
             distance_diff_km := |radiusAtNode el1 d - radiusAtNode el2 d|
             lat := Real.arcsin d.z * (180 / Real.pi)
             lon := atan2 d.y d.x * (180 / Real.pi)
             f_nc := 30 / (2 * Real.pi / |el1.n - el2.n| / 86400)
             T_c_days := 2 * Real.pi / |el1.n - el2.n| / 86400 } := by
  simp only [nodeForDirection]
  rw [if_pos h1, if_pos h2, if_pos h3]

/-- Everything `nodeForDirection` guarantees about an emitted node: its
direction vector, its synodic period and nodal frequency, and the three
qualification tests it passed. -/
theorem nodeForDirection_props (tol : ℝ) (el1 el2 : OrbitalElements) (d : Vec3)
    (nd : ConjunctionNode) (h : nodeForDirection tol el1 el2 d = some nd) :
    nd.node_vector = d ∧
    nd.T_c_days = 2 * Real.pi / |el1.n - el2.n| / 86400 ∧
    nd.f_nc = 30 / nd.T_c_days ∧
    |radiusAtNode el1 d - radiusAtNode el2 d| ≤ tol ∧
    0.000000001 < |el1.n - el2.n| ∧
    0.2 ≤ 2 * Real.pi / |el1.n - el2.n| / 86400 := by
  simp only [nodeForDirection] at h
  by_cases h1 : |radiusAtNode el1 d - radiusAtNode el2 d| ≤ tol
  · rw [if_pos h1] at h
    by_cases h2 : 0.000000001 < |el1.n - el2.n|
    · rw [if_pos h2] at h
      by_cases h3 : 0.2 ≤ 2 * Real.pi / |el1.n - el2.n| / 86400
      · rw [if_pos h3, Option.some_inj] at h
        subst h
        exact ⟨rfl, rfl, rfl, h1, h2, h3⟩
      · rw [if_neg h3] at h
        cases h
    · rw [if_neg h2] at h
      cases h
  · rw [if_neg h1] at h
    cases h

/-- Membership in the node list, given a passing band filter and a
non-degenerate intersection line: a node comes from one of the two
directions `±L̂`. -/
theorem mem_calculate_conjunction_nodes (tol : ℝ) (el1 el2 : OrbitalElements)
    (Lu : Vec3) (nd : ConjunctionNode)
    (hf : check_apogee_perigee_filter tol el1 el2)
    (hL : find_intersection_line el1 el2 = some Lu) :
    nd ∈ calculate_conjunction_nodes tol el1 el2 ↔
      nodeForDirection tol el1 el2 (smul3 1 Lu) = some nd ∨
      nodeForDirection tol el1 el2 (smul3 (-1) Lu) = some nd := by
  unfold calculate_conjunction_nodes
  rw [if_pos hf, hL]
  constructor
  · intro h
    rcases List.mem_filterMap.mp h with ⟨dir, hdir, hsome⟩
    simp only [List.mem_cons, List.mem_singleton, List.not_mem_nil, or_false] at hdir
    rcases hdir with rfl | rfl
    · exact Or.inl hsome
    · exact Or.inr hsome
  · rintro (h | h)
    · exact List.mem_filterMap.mpr ⟨1, by simp, h⟩
    · exact List.mem_filterMap.mpr ⟨-1, by simp, h⟩

/-- A non-degenerate intersection line separates its two directions:
`+L̂ ≠ -L̂`. -/
theorem smul_intersection_line_ne (el1 el2 : OrbitalElements) (Lu : Vec3)
    (hL : find_intersection_line el1 el2 = some Lu) :
    smul3 1 Lu ≠ smul3 (-1) Lu := by
  simp only [find_intersection_line] at hL
  intro heq
  simp only [smul3, Vec3.mk.injEq] at heq
  obtain ⟨hx, hy, hz⟩ := heq
  have hx0 : Lu.x = 0 := by linarith
  have hy0 : Lu.y = 0 := by linarith
  have hz0 : Lu.z = 0 := by linarith
  set C := cross3 (get_orbital_plane_normal el1.i el1.om)
    (get_orbital_plane_normal el2.i el2.om) with hC
  by_cases hlt : norm3 C < 0.000001
  · rw [if_pos hlt] at hL
    cases hL
  · rw [if_neg hlt, Option.some_inj] at hL
    have hn : 0 < norm3 C := lt_of_lt_of_le (by norm_num) (not_lt.mp hlt)
    have hCx : C.x = 0 := by
      have hh := congrArg Vec3.x hL
      simp only [vdiv3] at hh
      rw [hx0] at hh
      rcases div_eq_zero_iff.mp hh with h | h
      · exact h
      · exact absurd h hn.ne'
    have hCy : C.y = 0 := by
      have hh := congrArg Vec3.y hL
      simp only [vdiv3] at hh
      rw [hy0] at hh
      rcases div_eq_zero_iff.mp hh with h | h
      · exact h
      · exact absurd h hn.ne'
    have hCz : C.z = 0 := by
      have hh := congrArg Vec3.z hL
      simp only [vdiv3] at hh
      rw [hz0] at hh
      rcases div_eq_zero_iff.mp hh with h | h
      · exact h
      · exact absurd h hn.ne'
    have hzero : norm3 C = 0 := by
      unfold norm3
      rw [hCx, hCy, hCz]
      norm_num
    rw [hzero] at hn
    exact lt_irrefl 0 hn

/-- C2: for every pair of element sets that passes the apogee/perigee band
filter and has a non-degenerate plane intersection `L̂`, a node direction
`d ∈ {+L̂, -L̂}` is included in the output of
`calculate_conjunction_nodes` if and only if `|r1 - r2| ≤ tolerance_km` at
`d`, `|n1 - n2|` exceeds the `1e-9` near-zero guard, and the synodic
period `T_c_days = (2π/|n1-n2|)/86400` is at least `0.2` days; and every
emitted node carries `f_nc = 30 / T_c_days`. -/
theorem conjunction_node_membership (tol : ℝ) (el1 el2 : OrbitalElements) (Lu : Vec3)
    (hf : check_apogee_perigee_filter tol el1 el2)
    (hL : find_intersection_line el1 el2 = some Lu) :
    (∀ direction : ℝ, direction = 1 ∨ direction = -1 →
      ((∃ nd ∈ calculate_conjunction_nodes tol el1 el2,
          nd.node_vector = smul3 direction Lu) ↔
        (|radiusAtNode el1 (smul3 direction Lu) -
            radiusAtNode el2 (smul3 direction Lu)| ≤ tol ∧
         0.000000001 < |el1.n - el2.n| ∧
         0.2 ≤ 2 * Real.pi / |el1.n - el2.n| / 86400))) ∧
    (∀ nd ∈ calculate_conjunction_nodes tol el1 el2,
      nd.T_c_days = 2 * Real.pi / |el1.n - el2.n| / 86400 ∧
      nd.f_nc = 30 / nd.T_c_days) := by
  have hne := smul_intersection_line_ne el1 el2 Lu hL
  constructor
  · intro dir hdir
    constructor
    · rintro ⟨nd, hnd, hvec⟩
      rcases (mem_calculate_conjunction_nodes tol el1 el2 Lu nd hf hL).mp hnd with h | h
      · obtain ⟨hv, hT, hfn, hd1, hd2, hd3⟩ := nodeForDirection_props _ _ _ _ _ h
        rcases hdir with rfl | rfl
        · exact ⟨hd1, hd2, hd3⟩
        · exact absurd (hv.symm.trans hvec) hne
      · obtain ⟨hv, hT, hfn, hd1, hd2, hd3⟩ := nodeForDirection_props _ _ _ _ _ h
        rcases hdir with rfl | rfl
        · exact absurd ((hv.symm.trans hvec).symm) hne
        · exact ⟨hd1, hd2, hd3⟩
    · rintro ⟨hd1, hd2, hd3⟩
      have hs := nodeForDirection_eq_some tol el1 el2 (smul3 dir Lu) hd1 hd2 hd3
      rcases hdir with rfl | rfl
      · exact ⟨_, (mem_calculate_conjunction_nodes tol el1 el2 Lu _ hf hL).mpr (Or.inl hs), rfl⟩
      · exact ⟨_, (mem_calculate_conjunction_nodes tol el1 el2 Lu _ hf hL).mpr (Or.inr hs), rfl⟩
  · intro nd hnd
    rcases (mem_calculate_conjunction_nodes tol el1 el2 Lu nd hf hL).mp hnd with h | h <;>
      obtain ⟨hv, hT, hfn, _⟩ := nodeForDirection_props _ _ _ _ _ h <;>
      exact ⟨hT, hfn⟩

/-- C2 witness: the node-membership characterisation instantiated at a
concrete pair of circular polar orbits whose planes intersect along the
polar axis `(0,0,1)`. -/
theorem conjunction_node_membership_witness :
    (∀ direction : ℝ, direction = 1 ∨ direction = -1 →
      ((∃ nd ∈ calculate_conjunction_nodes 0.2 elW1 elW2,
          nd.node_vector = smul3 direction ⟨0, 0, 1⟩) ↔
        (|radiusAtNode elW1 (smul3 direction ⟨0, 0, 1⟩) -
            radiusAtNode elW2 (smul3 direction ⟨0, 0, 1⟩)| ≤ 0.2 ∧
         0.000000001 < |elW1.n - elW2.n| ∧
         0.2 ≤ 2 * Real.pi / |elW1.n - elW2.n| / 86400))) ∧
    (∀ nd ∈ calculate_conjunction_nodes 0.2 elW1 elW2,
      nd.T_c_days = 2 * Real.pi / |elW1.n - elW2.n| / 86400 ∧
      nd.f_nc = 30 / nd.T_c_days) :=
  conjunction_node_membership 0.2 elW1 elW2 ⟨0, 0, 1⟩
    (by norm_num [check_apogee_perigee_filter, elW1, elW2])
    (by norm_num [find_intersection_line, get_orbital_plane_normal, cross3, norm3,
      vdiv3, elW1, elW2, Real.sin_pi_div_two, Real.cos_pi_div_two, Real.sqrt_one])

/-- Characterisation of the combination index pairs. -/
theorem mem_pairsIdx (n i j : ℕ) : (i, j) ∈ pairsIdx n ↔ i < j ∧ j < n := by
  unfold pairsIdx
  simp only [List.mem_flatMap, List.mem_map, List.mem_filter, List.mem_range,
    decide_eq_true_eq, Prod.mk.injEq]
  constructor
  · rintro ⟨a, ha, b, ⟨hb, hab⟩, rfl, rfl⟩
    exact ⟨hab, hb⟩
  · rintro ⟨hij, hj⟩
    exact ⟨i, lt_trans hij hj, j, ⟨hj, hij⟩, rfl, rfl⟩

/-- On a perigee-sorted list, the sweep's `break` (`takeWhile`) misses
nothing: it agrees with filtering. -/
theorem takeWhile_eq_filter_of_pairwise (c : ℝ) :
    ∀ {L : List (ℕ × ℝ × ℝ)}, L.Pairwise bandLE →
      L.takeWhile (fun y => decide (y.2.1 ≤ c)) =
        L.filter (fun y => decide (y.2.1 ≤ c)) := by
  intro L
  induction L with
  | nil => intro _; rfl
  | cons x t ih =>
    intro hpw
    rcases List.pairwise_cons.mp hpw with ⟨hx, ht⟩
    by_cases hxc : x.2.1 ≤ c
    · have hb : decide (x.2.1 ≤ c) = true := decide_eq_true hxc
      rw [List.takeWhile_cons, List.filter_cons, hb, if_pos rfl, if_pos rfl, ih ht]
    · have hb : decide (x.2.1 ≤ c) = false := decide_eq_false hxc
      have hall : ∀ y ∈ t, ¬y.2.1 ≤ c := fun y hy hyc => hxc (le_trans (hx y hy) hyc)
      rw [List.takeWhile_cons, List.filter_cons, hb]
      simp only [Bool.false_eq_true, if_false]
      rw [List.filter_eq_nil_iff.mpr (fun y hy => by simp [hall y hy])]

/-- Occurrence-order membership in a cons cell. -/
theorem orderedMem_cons {α : Type} (x : α) (L : List α) (u v : α) :
    orderedMem (x :: L) u v ↔ (u = x ∧ v ∈ L) ∨ orderedMem L u v := by
  constructor
  · rintro ⟨l1, l2, heq, hv⟩
    cases l1 with
    | nil =>
      rw [List.nil_append] at heq
      rcases List.cons.injEq .. ▸ heq with ⟨h1, h2⟩
      exact Or.inl ⟨h1.symm, h2 ▸ hv⟩
    | cons a l1' =>
      rw [List.cons_append] at heq
      rcases List.cons.injEq .. ▸ heq with ⟨h1, h2⟩
      exact Or.inr ⟨l1', l2, h2, hv⟩
  · rintro (⟨rfl, hv⟩ | ⟨l1, l2, heq, hv⟩)
    · exact ⟨[], L, rfl, hv⟩
    · exact ⟨x :: l1, l2, by rw [heq]; rfl, hv⟩

/-- Two distinct members of a list occur in one order or the other. -/
theorem orderedMem_or {α : Type} {L : List α} {u v : α}
    (hu : u ∈ L) (hv : v ∈ L) (hne : u ≠ v) :
    orderedMem L u v ∨ orderedMem L v u := by
  induction L with
  | nil => cases hu
  | cons x t ih =>
    rcases List.mem_cons.mp hu with rfl | hu'
    · have hv' : v ∈ t := by
        rcases List.mem_cons.mp hv with h | h
        · exact absurd h.symm hne
        · exact h
      exact Or.inl ((orderedMem_cons _ t u v).mpr (Or.inl ⟨rfl, hv'⟩))
    · rcases List.mem_cons.mp hv with rfl | hv'
      · exact Or.inr ((orderedMem_cons _ t v u).mpr (Or.inl ⟨rfl, hu'⟩))
      · rcases ih hu' hv' with h | h
        · exact Or.inl ((orderedMem_cons _ t u v).mpr (Or.inr h))
        · exact Or.inr ((orderedMem_cons _ t v u).mpr (Or.inr h))

/-- Ordered occurrence implies membership of both elements. -/
theorem orderedMem_mem {α : Type} {L : List α} {u v : α}
    (h : orderedMem L u v) : u ∈ L ∧ v ∈ L := by
  obtain ⟨l1, l2, rfl, hv⟩ := h
  exact ⟨List.mem_append.mpr (Or.inr (List.mem_cons_self _ _)),
    List.mem_append.mpr (Or.inr (List.mem_cons.mpr (Or.inr hv)))⟩

/-- In a duplicate-free list nothing occurs strictly before itself. -/
theorem orderedMem_irrefl {α : Type} {L : List α} (hnd : L.Nodup) (u : α) :
    ¬orderedMem L u u := by
  rintro ⟨l1, l2, rfl, hu⟩
  rcases List.nodup_cons.mp (List.Nodup.of_append_right hnd) with ⟨hnotin, _⟩
  exact hnotin hu

/-- In a perigee-sorted list, earlier means smaller-or-equal perigee. -/
theorem bandLE_of_orderedMem {L : List (ℕ × ℝ × ℝ)} (hpw : L.Pairwise bandLE)
    {u v : ℕ × ℝ × ℝ} (h : orderedMem L u v) : bandLE u v := by
  obtain ⟨l1, l2, rfl, hv⟩ := h
  have h2 : (u :: l2).Pairwise bandLE := (List.pairwise_append.mp hpw).2.1
  exact (List.pairwise_cons.mp h2).1 v hv

/-- Characterisation of the `(index, perigee, apogee)` triples. -/
theorem mem_bandsOf {sats : List OrbitalElements} {k : ℕ} {pa Aa : ℝ} :
    (k, pa, Aa) ∈ bandsOf sats ↔
      k < sats.length ∧
      pa = (sats.getD k default).a * (1 - (sats.getD k default).e) ∧
      Aa = (sats.getD k default).a * (1 + (sats.getD k default).e) := by
  unfold bandsOf
  rw [List.mem_map]
  constructor
  · rintro ⟨k', hk', heq⟩
    cases heq
    exact ⟨List.mem_range.mp hk', rfl, rfl⟩
  · rintro ⟨hk, rfl, rfl⟩
    exact ⟨k, List.mem_range.mpr hk, rfl⟩

/-- The band triples are duplicate-free (distinct indices). -/
theorem bandsOf_nodup (sats : List OrbitalElements) : (bandsOf sats).Nodup := by
  unfold bandsOf
  refine List.Nodup.map ?_ (List.nodup_range _)
  intro k1 k2 h
  simpa using congrArg Prod.fst h

/-- Membership in the emitted sweep pairs of a perigee-sorted list:
exactly the in-order pairs whose later (larger-perigee) member's perigee
is within `apogee + tolerance` of the earlier one. -/
theorem mem_sweepPairs {tol : ℝ} {a b : ℕ} :
    ∀ {L : List (ℕ × ℝ × ℝ)}, L.Pairwise bandLE →
      ((a, b) ∈ sweepPairs tol L ↔
        ∃ u v, orderedMem L u v ∧ u.1 = a ∧ v.1 = b ∧ v.2.1 ≤ u.2.2 + tol) := by
  intro L
  induction L with
  | nil =>
    intro _
    constructor
    · intro h
      cases h
    · rintro ⟨u, v, ⟨l1, l2, heq, _⟩, _⟩
      exact absurd heq.symm (List.append_ne_nil_of_right_ne_nil l1 (List.cons_ne_nil u l2))
  | cons x t ih =>
    intro hpw
    rcases List.pairwise_cons.mp hpw with ⟨hx, ht⟩
    show (a, b) ∈
        ((t.takeWhile (fun y => decide (y.2.1 ≤ x.2.2 + tol))).map (fun y => (x.1, y.1)))
          ++ sweepPairs tol t ↔ _
    rw [List.mem_append, takeWhile_eq_filter_of_pairwise (x.2.2 + tol) ht]
    constructor
    · rintro (h | h)
      · rcases List.mem_map.mp h with ⟨y, hy, heq⟩
        rcases List.mem_filter.mp hy with ⟨hyt, hcond⟩
        obtain ⟨h1, h2⟩ := Prod.mk.injEq .. ▸ heq
        exact ⟨x, y, (orderedMem_cons x t x y).mpr (Or.inl ⟨rfl, hyt⟩), h1, h2,
          of_decide_eq_true hcond⟩
      · rcases (ih ht).mp h with ⟨u, v, hom, h1, h2, h3⟩
        exact ⟨u, v, (orderedMem_cons x t u v).mpr (Or.inr hom), h1, h2, h3⟩
    · rintro ⟨u, v, hom, h1, h2, h3⟩
      rcases (orderedMem_cons x t u v).mp hom with ⟨rfl, hvt⟩ | hom'
      · left
        apply List.mem_map.mpr
        refine ⟨v, List.mem_filter.mpr ⟨hvt, decide_eq_true h3⟩, ?_⟩
        rw [h1, h2]
      · right
        exact (ih ht).mpr ⟨u, v, hom', h1, h2, h3⟩

/-- The two-sided overlap test is symmetric in the two objects. -/
theorem check_apogee_perigee_filter_symm (tol : ℝ) (el1 el2 : OrbitalElements) :
    check_apogee_perigee_filter tol el1 el2 ↔ check_apogee_perigee_filter tol el2 el1 := by
  unfold check_apogee_perigee_filter
  rw [max_comm, min_comm]

/-- A `getD` at an in-range index is a member of the list. -/
theorem getD_mem_of_lt {sats : List OrbitalElements} {k : ℕ} (hk : k < sats.length) :
    sats.getD k default ∈ sats := by
  rw [List.getD_eq_getElem sats default hk]
  exact List.getElem_mem hk

/-- Soundness of the sweep: every emitted pair is a distinct in-range pair
passing the two-sided brute-force overlap test. -/
theorem sweepPairs_sound (tol : ℝ) (sats : List OrbitalElements)
    (htol : 0 ≤ tol) (hval : ∀ el ∈ sats, 0 ≤ el.a ∧ 0 ≤ el.e) (a b : ℕ)
    (h : (a, b) ∈ sweepPairs tol (List.insertionSort bandLE (bandsOf sats))) :
    a < sats.length ∧ b < sats.length ∧ a ≠ b ∧
      check_apogee_perigee_filter tol (sats.getD a default) (sats.getD b default) := by
  have hperm := List.perm_insertionSort bandLE (bandsOf sats)
  have hsorted := List.sorted_insertionSort bandLE (bandsOf sats)
  have hnd : (List.insertionSort bandLE (bandsOf sats)).Nodup :=
    hperm.nodup_iff.mpr (bandsOf_nodup sats)
  rcases (mem_sweepPairs hsorted).mp h with ⟨u, v, hom, hua, hvb, hle⟩
  obtain ⟨hu, hv⟩ := orderedMem_mem hom
  obtain ⟨ui, up, uA⟩ := u
  obtain ⟨vi, vp, vA⟩ := v
  dsimp only at hua hvb hle
  subst ui
  subst vi
  rcases mem_bandsOf.mp (hperm.mem_iff.mp hu) with ⟨ha, hup, huA⟩
  rcases mem_bandsOf.mp (hperm.mem_iff.mp hv) with ⟨hb, hvp, hvA⟩
  subst hup
  subst huA
  subst hvp
  subst hvA
  refine ⟨ha, hb, ?_, ?_⟩
  · rintro rfl
    exact orderedMem_irrefl hnd _ hom
  · have hple := bandLE_of_orderedMem hsorted hom
    unfold bandLE at hple
    dsimp only at hple
    obtain ⟨haa, hae⟩ := hval _ (getD_mem_of_lt ha)
    obtain ⟨hba, hbe⟩ := hval _ (getD_mem_of_lt hb)
    have hpbAb : (sats.getD b default).a * (1 - (sats.getD b default).e) ≤
        (sats.getD b default).a * (1 + (sats.getD b default).e) := by nlinarith
    unfold check_apogee_perigee_filter
    have hkey : (sats.getD b default).a * (1 - (sats.getD b default).e) ≤
        min ((sats.getD a default).a * (1 + (sats.getD a default).e))
          ((sats.getD b default).a * (1 + (sats.getD b default).e)) + tol := by
      have h2 : (sats.getD b default).a * (1 - (sats.getD b default).e) ≤
          (sats.getD b default).a * (1 + (sats.getD b default).e) + tol := by linarith
      calc (sats.getD b default).a * (1 - (sats.getD b default).e)
          ≤ min ((sats.getD a default).a * (1 + (sats.getD a default).e) + tol)
              ((sats.getD b default).a * (1 + (sats.getD b default).e) + tol) :=
            le_min hle h2
        _ = min ((sats.getD a default).a * (1 + (sats.getD a default).e))
              ((sats.getD b default).a * (1 + (sats.getD b default).e)) + tol :=
            min_add_add_right _ _ _
    exact max_le (le_trans hple hkey) hkey

/-- Completeness of the sweep: every in-range pair passing the brute-force
overlap test is emitted in one of the two index orders. -/
theorem sweepPairs_complete (tol : ℝ) (sats : List OrbitalElements)
    (a b : ℕ) (hab : a < b) (hb : b < sats.length)
    (hchk : check_apogee_perigee_filter tol (sats.getD a default) (sats.getD b default)) :
    (a, b) ∈ sweepPairs tol (List.insertionSort bandLE (bandsOf sats)) ∨
    (b, a) ∈ sweepPairs tol (List.insertionSort bandLE (bandsOf sats)) := by
  have hperm := List.perm_insertionSort bandLE (bandsOf sats)
  have hsorted := List.sorted_insertionSort bandLE (bandsOf sats)
  have ha : a < sats.length := lt_trans hab hb
  have hua : (a, (sats.getD a default).a * (1 - (sats.getD a default).e),
      (sats.getD a default).a * (1 + (sats.getD a default).e)) ∈
        List.insertionSort bandLE (bandsOf sats) :=
    hperm.mem_iff.mpr (mem_bandsOf.mpr ⟨ha, rfl, rfl⟩)
  have hub : (b, (sats.getD b default).a * (1 - (sats.getD b default).e),
      (sats.getD b default).a * (1 + (sats.getD b default).e)) ∈
        List.insertionSort bandLE (bandsOf sats) :=
    hperm.mem_iff.mpr (mem_bandsOf.mpr ⟨hb, rfl, rfl⟩)
  have hne : (a, (sats.getD a default).a * (1 - (sats.getD a default).e),
      (sats.getD a default).a * (1 + (sats.getD a default).e)) ≠
      (b, (sats.getD b default).a * (1 - (sats.getD b default).e),
      (sats.getD b default).a * (1 + (sats.getD b default).e)) := by
    intro hcontra
    injection hcontra with h1 _
    exact absurd h1 hab.ne
  unfold check_apogee_perigee_filter at hchk
  rcases orderedMem_or hua hub hne with hom | hom
  · left
    apply (mem_sweepPairs hsorted).mpr
    refine ⟨_, _, hom, rfl, rfl, ?_⟩
    dsimp only
    have h1 := le_max_right ((sats.getD a default).a * (1 - (sats.getD a default).e))
      ((sats.getD b default).a * (1 - (sats.getD b default).e))
    have h2 := min_le_left ((sats.getD a default).a * (1 + (sats.getD a default).e))
      ((sats.getD b default).a * (1 + (sats.getD b default).e))
    linarith
  · right
    apply (mem_sweepPairs hsorted).mpr
    refine ⟨_, _, hom, rfl, rfl, ?_⟩
    dsimp only
    have h1 := le_max_left ((sats.getD a default).a * (1 - (sats.getD a default).e))
      ((sats.getD b default).a * (1 - (sats.getD b default).e))
    have h2 := min_le_right ((sats.getD a default).a * (1 + (sats.getD a default).e))
      ((sats.getD b default).a * (1 + (sats.getD b default).e))
    linarith

/-- C1: for every population of objects with finite (valid: `a ≥ 0`,
`e ≥ 0`, so perigee ≤ apogee) perigee and apogee radii and every
nonnegative tolerance, the candidate-pair set produced by the sorted
interval-sweep pruner `vectorized_apogee_perigee_filter` equals, as a set
of unordered index pairs, the set of pairs that pass the brute-force
two-sided overlap test `check_apogee_perigee_filter` applied to all C(N,2)
pairs. -/
theorem vectorized_filter_equals_bruteforce (tol : ℝ) (sats : List OrbitalElements)
    (htol : 0 ≤ tol) (hval : ∀ el ∈ sats, 0 ≤ el.a ∧ 0 ≤ el.e) :
    ∀ a b : ℕ,
      pairMemUnordered (vectorized_apogee_perigee_filter tol sats) a b ↔
        pairMemUnordered (brutePairs tol sats) a b := by
  intro a b
  have hveq : vectorized_apogee_perigee_filter tol sats =
      sweepPairs tol (List.insertionSort bandLE (bandsOf sats)) := rfl
  have hbrute : ∀ x y : ℕ, (x, y) ∈ brutePairs tol sats ↔
      x < y ∧ y < sats.length ∧
        check_apogee_perigee_filter tol (sats.getD x default) (sats.getD y default) := by
    intro x y
    unfold brutePairs
    rw [List.mem_filter, mem_pairsIdx]
    constructor
    · rintro ⟨⟨h1, h2⟩, h3⟩
      exact ⟨h1, h2, of_decide_eq_true h3⟩
    · rintro ⟨h1, h2, h3⟩
      exact ⟨⟨h1, h2⟩, decide_eq_true h3⟩
  unfold pairMemUnordered
  rw [hveq]
  constructor
  · rintro (h | h)
    · rcases sweepPairs_sound tol sats htol hval a b h with ⟨ha, hb, hne, hchk⟩
      rcases lt_or_gt_of_ne hne with hlt | hgt
      · exact Or.inl ((hbrute a b).mpr ⟨hlt, hb, hchk⟩)
      · exact Or.inr ((hbrute b a).mpr ⟨hgt, ha,
          (check_apogee_perigee_filter_symm tol _ _).mp hchk⟩)
    · rcases sweepPairs_sound tol sats htol hval b a h with ⟨hb, ha, hne, hchk⟩
      rcases lt_or_gt_of_ne hne with hlt | hgt
      · exact Or.inr ((hbrute b a).mpr ⟨hlt, ha, hchk⟩)
      · exact Or.inl ((hbrute a b).mpr ⟨hgt, hb,
          (check_apogee_perigee_filter_symm tol _ _).mp hchk⟩)
  · rintro (h | h)
    · rcases (hbrute a b).mp h with ⟨hab, hb2, hchk⟩
      exact sweepPairs_complete tol sats a b hab hb2 hchk
    · rcases (hbrute b a).mp h with ⟨hba, ha2, hchk⟩
      rcases sweepPairs_complete tol sats b a hba ha2 hchk with h' | h'
      · exact Or.inr h'
      · exact Or.inl h'

/-- C1 witness: the pruner/brute-force equivalence instantiated at a
concrete two-object population with tolerance 5. -/
theorem vectorized_filter_equals_bruteforce_witness :
    pairMemUnordered (vectorized_apogee_perigee_filter 5 [elW1, elW3]) 0 1 ↔
      pairMemUnordered (brutePairs 5 [elW1, elW3]) 0 1 :=
  vectorized_filter_equals_bruteforce 5 [elW1, elW3] (by norm_num)
    (by intro el hel; fin_cases hel <;> norm_num [elW1, elW3]) 0 1

/-- The update `updAt` preserves list length. -/
theorem updAt_length {α : Type} (k : ℕ) (f : α → α) :
    ∀ l : List α, (updAt k f l).length = l.length := by
  intro l
  induction l generalizing k with
  | nil => simp [updAt]
  | cons x xs ih =>
    cases k with
    | zero => rfl
    | succ k => simp [updAt, ih]

/-- The update `updAt` leaves other positions unchanged. -/
theorem getD_updAt_ne {α : Type} (k m : ℕ) (f : α → α) (d : α) (hne : k ≠ m) :
    ∀ l : List α, (updAt k f l).getD m d = l.getD m d := by
  intro l
  induction l generalizing k m with
  | nil => simp [updAt]
  | cons x xs ih =>
    cases k with
    | zero =>
      cases m with
      | zero => exact absurd rfl hne
      | succ m => rfl
    | succ k =>
      cases m with
      | zero => rfl
      | succ m => exact ih k m (fun h => hne (by rw [h]))

/-- The update `updAt` applies the function at its own in-range position. -/
theorem getD_updAt_eq {α : Type} (k : ℕ) (f : α → α) (d : α) :
    ∀ l : List α, k < l.length → (updAt k f l).getD k d = f (l.getD k d) := by
  intro l
  induction l generalizing k with
  | nil => intro h; cases h
  | cons x xs ih =>
    intro hk
    cases k with
    | zero => rfl
    | succ k => exact ih k (Nat.lt_of_succ_lt_succ hk)

/-- Score at position `k` after one in-place `addNodeScore` at position
`i`. -/
theorem getD_updAt_score (i k : ℕ) (f : ℝ) (ss : List ScientificSatellite) :
    ((updAt i (addNodeScore f) ss).getD k default).criticality_score =
      (ss.getD k default).criticality_score +
        (if i = k ∧ k < ss.length then f else 0) := by
  by_cases hik : i = k
  · subst hik
    by_cases hk : i < ss.length
    · rw [getD_updAt_eq i _ default ss hk]
      simp [addNodeScore, hk]
    · rw [List.getD_eq_default _ _ (by rw [updAt_length]; exact not_lt.mp hk),
        List.getD_eq_default _ _ (not_lt.mp hk)]
      simp [hk]
  · rw [getD_updAt_ne i k _ default hik]
    simp [hik]

/-- Elements at any position survive an in-place `addNodeScore`. -/
theorem getD_updAt_els (i k : ℕ) (f : ℝ) (ss : List ScientificSatellite) :
    ((updAt i (addNodeScore f) ss).getD k default).orbital_elements =
      (ss.getD k default).orbital_elements := by
  by_cases hik : i = k
  · subst hik
    by_cases hk : i < ss.length
    · rw [getD_updAt_eq i _ default ss hk]
      rfl
    · rw [List.getD_eq_default _ _ (by rw [updAt_length]; exact not_lt.mp hk),
        List.getD_eq_default _ _ (not_lt.mp hk)]
  · rw [getD_updAt_ne i k _ default hik]

/-- The inner node fold preserves list length. -/
theorem foldl_addNode_length (i j : ℕ) (nds : List ConjunctionNode) :
    ∀ ss : List ScientificSatellite,
      (nds.foldl (fun ss2 nd =>
        updAt j (addNodeScore nd.f_nc) (updAt i (addNodeScore nd.f_nc) ss2)) ss).length =
      ss.length := by
  induction nds with
  | nil => intro ss; rfl
  | cons nd t ih =>
    intro ss
    rw [List.foldl_cons, ih, updAt_length, updAt_length]

/-- The inner node fold preserves every object's elements. -/
theorem foldl_addNode_els (i j : ℕ) (nds : List ConjunctionNode) :
    ∀ ss : List ScientificSatellite, ∀ k : ℕ,
      (((nds.foldl (fun ss2 nd =>
          updAt j (addNodeScore nd.f_nc) (updAt i (addNodeScore nd.f_nc) ss2)) ss).getD
        k default)).orbital_elements = ((ss.getD k default)).orbital_elements := by
  induction nds with
  | nil => intro ss k; rfl
  | cons nd t ih =>
    intro ss k
    rw [List.foldl_cons, ih, getD_updAt_els, getD_updAt_els]

/-- The inner node fold adds the pair's total nodal frequency to each of
the two participating positions. -/
theorem foldl_addNode_score (i j : ℕ) (nds : List ConjunctionNode) :
    ∀ ss : List ScientificSatellite, ∀ k : ℕ, k < ss.length →
      (((nds.foldl (fun ss2 nd =>
          updAt j (addNodeScore nd.f_nc) (updAt i (addNodeScore nd.f_nc) ss2)) ss).getD
        k default)).criticality_score =
        ((ss.getD k default)).criticality_score +
          ((if i = k then 1 else 0) + (if j = k then 1 else 0)) *
            (nds.map (fun nd => nd.f_nc)).sum := by
  induction nds with
  | nil =>
    intro ss k hk
    simp
  | cons nd t ih =>
    intro ss k hk
    rw [List.foldl_cons]
    have hk' : k < (updAt j (addNodeScore nd.f_nc)
        (updAt i (addNodeScore nd.f_nc) ss)).length := by
      rw [updAt_length, updAt_length]
      exact hk
    rw [ih _ k hk']
    have h1 := getD_updAt_score j k nd.f_nc (updAt i (addNodeScore nd.f_nc) ss)
    rw [updAt_length] at h1
    rw [h1, getD_updAt_score i k nd.f_nc ss]
    simp only [hk, and_true, List.map_cons, List.sum_cons]
    split_ifs <;> ring

/-- One pair's processing preserves list length. -/
theorem applyPair_length (tol : ℝ) (ss : List ScientificSatellite) (p : ℕ × ℕ) :
    (applyPair tol ss p).length = ss.length :=
  foldl_addNode_length p.1 p.2 _ ss

/-- One pair's processing preserves every object's elements. -/
theorem applyPair_els (tol : ℝ) (ss : List ScientificSatellite) (p : ℕ × ℕ) (k : ℕ) :
    ((applyPair tol ss p).getD k default).orbital_elements =
      ((ss.getD k default)).orbital_elements :=
  foldl_addNode_els p.1 p.2 _ ss k

/-- One pair's processing adds the pair's total nodal frequency to each of
its two positions. -/
theorem applyPair_score (tol : ℝ) (ss : List ScientificSatellite) (p : ℕ × ℕ)
    (k : ℕ) (hk : k < ss.length) :
    ((applyPair tol ss p).getD k default).criticality_score =
      ((ss.getD k default)).criticality_score +
        ((if p.1 = k then 1 else 0) + (if p.2 = k then 1 else 0)) *
          ((calculate_conjunction_nodes tol (ss.getD p.1 default).orbital_elements
              (ss.getD p.2 default).orbital_elements).map (fun nd => nd.f_nc)).sum :=
  foldl_addNode_score p.1 p.2 _ ss k hk

/-- Unrolling the pairwise fold of `calculate_population_criticality`:
each object's final score is its initial score plus the sum of its
per-pair contributions (elements taken from any reference list `base`
whose elements agree with the evolving state). -/
theorem foldl_applyPair_score (tol : ℝ) (base : List ScientificSatellite) :
    ∀ (ps : List (ℕ × ℕ)) (ss : List ScientificSatellite),
      ss.length = base.length →
      (∀ m, ((ss.getD m default)).orbital_elements =
        ((base.getD m default)).orbital_elements) →
      ∀ k, k < base.length →
      ((ps.foldl (applyPair tol) ss).getD k default).criticality_score =
        ((ss.getD k default)).criticality_score +
        (ps.map (fun p =>
          ((if p.1 = k then 1 else 0) + (if p.2 = k then 1 else 0)) *
            ((calculate_conjunction_nodes tol
                (base.getD p.1 default).orbital_elements
                (base.getD p.2 default).orbital_elements).map
              (fun nd => nd.f_nc)).sum)).sum := by
  intro ps
  induction ps with
  | nil =>
    intro ss hlen hels k hk
    simp
  | cons p pt ih =>
    intro ss hlen hels k hk
    rw [List.foldl_cons]
    have hlen' : (applyPair tol ss p).length = base.length := by
      rw [applyPair_length, hlen]
    have hels' : ∀ m, ((applyPair tol ss p).getD m default).orbital_elements =
        ((base.getD m default)).orbital_elements := by
      intro m
      rw [applyPair_els]
      exact hels m
    rw [ih (applyPair tol ss p) hlen' hels' k hk]
    rw [applyPair_score tol ss p k (by rw [hlen]; exact hk)]
    rw [hels p.1, hels p.2]
    simp only [List.map_cons, List.sum_cons]
    ring

/-- The reset pass zeroes scores and keeps elements. -/
theorem getD_reset (sats : List ScientificSatellite) (k : ℕ) :
    ((sats.map (fun s =>
        { s with criticality_score := 0, nodal_frequencies := [] })).getD k default) =
      if k < sats.length then
        { sats.getD k default with criticality_score := 0, nodal_frequencies := [] }
      else default := by
  by_cases hk : k < sats.length
  · rw [if_pos hk]
    rw [List.getD_eq_getElem _ _ (by rw [List.length_map]; exact hk),
      List.getD_eq_getElem _ _ hk]
    rw [List.getElem_map]
  · rw [if_neg hk]
    rw [List.getD_eq_default _ _ (by rw [List.length_map]; exact not_lt.mp hk)]

/-- C4: after `calculate_population_criticality` runs on a population,
every object's `criticality_score` equals the sum of `f_nc` over all
qualifying nodes of all pairs that include that object in this pass (each
node's `f_nc` contributes to both participating objects, and any score
held before the pass has no effect — the right-hand side depends only on
the objects' elements); in particular an object belonging to no qualifying
pair has `criticality_score` exactly 0. -/
theorem population_criticality_score (tol : ℝ) (sats : List ScientificSatellite)
    (k : ℕ) (hk : k < sats.length) :
    (((calculate_population_criticality tol sats).getD k default).criticality_score =
      ((pairsIdx sats.length).map (fun p =>
        (if p.1 = k then nodeFncSum tol sats p else 0) +
        (if p.2 = k then nodeFncSum tol sats p else 0))).sum) ∧
    ((∀ p ∈ pairsIdx sats.length, p.1 = k ∨ p.2 = k →
        calculate_conjunction_nodes tol (sats.getD p.1 default).orbital_elements
          (sats.getD p.2 default).orbital_elements = []) →
      ((calculate_population_criticality tol sats).getD k default).criticality_score = 0) := by
  have hlen : (sats.map (fun s : ScientificSatellite =>
      { s with criticality_score := 0, nodal_frequencies := [] })).length = sats.length :=
    List.length_map _ _
  have hels : ∀ m, (((sats.map (fun s : ScientificSatellite =>
      { s with criticality_score := 0, nodal_frequencies := [] })).getD m default)).orbital_elements =
      ((sats.getD m default)).orbital_elements := by
    intro m
    rw [getD_reset]
    by_cases hm : m < sats.length
    · rw [if_pos hm]
    · rw [if_neg hm, List.getD_eq_default _ _ (not_lt.mp hm)]
  have hmain : ((calculate_population_criticality tol sats).getD k default).criticality_score =
      ((pairsIdx sats.length).map (fun p =>
        (if p.1 = k then nodeFncSum tol sats p else 0) +
        (if p.2 = k then nodeFncSum tol sats p else 0))).sum := by
    unfold calculate_population_criticality
    rw [foldl_applyPair_score tol sats (pairsIdx sats.length) _ hlen hels k hk]
    rw [getD_reset, if_pos hk]
    simp only [zero_add]
    apply congrArg List.sum
    apply List.map_congr_left
    intro p _
    unfold nodeFncSum
    split_ifs <;> ring
  refine ⟨hmain, fun hiso => ?_⟩
  rw [hmain]
  apply List.sum_eq_zero
  intro x hx
  rcases List.mem_map.mp hx with ⟨p, hp, rfl⟩
  by_cases h1 : p.1 = k
  · have hz : nodeFncSum tol sats p = 0 := by
      unfold nodeFncSum
      rw [hiso p hp (Or.inl h1)]
      rfl
    simp [hz]
  · by_cases h2 : p.2 = k
    · have hz : nodeFncSum tol sats p = 0 := by
        unfold nodeFncSum
        rw [hiso p hp (Or.inr h2)]
        rfl
      simp [hz]
    · simp [h1, h2]

/-- C4 witness: the aggregation theorem instantiated at a one-object
population whose object carries a stale score of 5, which is reset: with
no pairs the final score is the empty sum, 0. -/
theorem population_criticality_score_witness :
    (((calculate_population_criticality 0.2 satsC4).getD 0 default).criticality_score =
      ((pairsIdx satsC4.length).map (fun p =>
        (if p.1 = 0 then nodeFncSum 0.2 satsC4 p else 0) +
        (if p.2 = 0 then nodeFncSum 0.2 satsC4 p else 0))).sum) ∧
    ((∀ p ∈ pairsIdx satsC4.length, p.1 = 0 ∨ p.2 = 0 →
        calculate_conjunction_nodes 0.2 (satsC4.getD p.1 default).orbital_elements
          (satsC4.getD p.2 default).orbital_elements = []) →
      ((calculate_population_criticality 0.2 satsC4).getD 0 default).criticality_score = 0) :=
  population_criticality_score 0.2 satsC4 0 (by norm_num [satsC4])

/-- Unrolling the forecast loop: after executing steps `0..N`, the state
holds the `N`-fold propagated snapshot, and the events are the
concatenation, over `k = 0..N`, of the step evaluations of the `k`-fold
propagated snapshot tagged with day `k·H/24`. -/
theorem foldl_stepFold_eq (tol H : ℝ) (sats : List OrbitalElements) :
    ∀ N : ℕ, ∀ ev0 : List RiskEvent,
      (List.range (N + 1)).foldl (stepFold tol H) (sats, ev0) =
        ((fun l : List OrbitalElements =>
            l.map (fun el => propagate el (H * 60)))^[N] sats,
         ev0 ++ (List.range (N + 1)).flatMap (fun k =>
           stepEvents tol
             ((fun l : List OrbitalElements =>
                 l.map (fun el => propagate el (H * 60)))^[k] sats)
             ((k * H) / 24))) := by
  intro N
  induction N with
  | zero =>
    intro ev0
    have h1 : List.range 1 = [0] := rfl
    rw [h1]
    simp only [List.foldl_cons, List.foldl_nil, List.flatMap_cons,
      List.flatMap_nil, List.append_nil, Function.iterate_zero, id_eq]
    simp [stepFold]
  | succ N ih =>
    intro ev0
    have hstep : ∀ st : List OrbitalElements × List RiskEvent,
        stepFold tol H st (N + 1) =
          (st.1.map (fun el => propagate el (H * 60)),
           st.2 ++ stepEvents tol (st.1.map (fun el => propagate el (H * 60)))
             ((((N + 1 : ℕ) : ℝ) * H) / 24)) := by
      intro st
      simp [stepFold]
    rw [List.range_succ, List.foldl_append, ih ev0, List.flatMap_append]
    simp only [List.foldl_cons, List.foldl_nil]
    rw [hstep]
    have hiter : ((fun l : List OrbitalElements =>
        l.map (fun el => propagate el (H * 60)))^[N] sats).map
          (fun el => propagate el (H * 60)) =
        (fun l : List OrbitalElements =>
          l.map (fun el => propagate el (H * 60)))^[N + 1] sats :=
      (Function.iterate_succ_apply' _ N sats).symm
    rw [hiter]
    simp [List.append_assoc]

/-- C8: for every horizon `D ≥ 0` days and step `H > 0` hours, the
forecast loop executes exactly `⌊D·24/H⌋ + 1` evaluation steps — the
returned events are precisely the concatenation of the per-step
evaluations for `k = 0, …, ⌊D·24/H⌋`, step `k` evaluated on the `k`-fold
propagated snapshot and tagged `day = k·H/24`; in particular `D = 0` runs
exactly one evaluation step (the initial snapshot), never zero or two. -/
theorem risk_timeline_step_structure (tol : ℝ) (sats : List OrbitalElements)
    (D H : ℝ) (hD : 0 ≤ D) (hH : 0 < H) :
    calculate_risk_timeline tol sats D H =
      some ((List.range (⌊D * 24 / H⌋.toNat + 1)).flatMap (fun k =>
        stepEvents tol
          ((fun l : List OrbitalElements =>
              l.map (fun el => propagate el (H * 60)))^[k] sats)
          ((k * H) / 24))) ∧
    (D = 0 → ⌊D * 24 / H⌋.toNat + 1 = 1) := by
  have hH0 : H ≠ 0 := ne_of_gt hH
  have hq : 0 ≤ D * 24 / H := div_nonneg (by linarith) hH.le
  have htr : pytrunc (D * 24 / H) = ⌊D * 24 / H⌋ := by
    unfold pytrunc
    rw [if_neg (not_lt.mpr hq)]
  have hfl : 0 ≤ ⌊D * 24 / H⌋ := Int.floor_nonneg.mpr hq
  constructor
  · unfold calculate_risk_timeline
    rw [if_neg hH0, htr]
    have htn : (⌊D * 24 / H⌋ + 1).toNat = ⌊D * 24 / H⌋.toNat + 1 := by omega
    simp only [htn]
    rw [foldl_stepFold_eq tol H sats (⌊D * 24 / H⌋.toNat) []]
    simp
  · intro hD0
    subst hD0
    norm_num

/-- C8 witness: a zero-day forecast over an empty population at 12-hour
steps is exactly the single initial snapshot. -/
theorem risk_timeline_step_structure_witness :
    calculate_risk_timeline 0.2 [] 0 12 =
      some ((List.range (⌊(0 : ℝ) * 24 / 12⌋.toNat + 1)).flatMap (fun k =>
        stepEvents 0.2
          ((fun l : List OrbitalElements =>
              l.map (fun el => propagate el (12 * 60)))^[k] [])
          ((k * 12) / 24))) ∧
    ((0 : ℝ) = 0 → ⌊(0 : ℝ) * 24 / 12⌋.toNat + 1 = 1) :=
  risk_timeline_step_structure 0.2 [] 0 12 (le_refl 0) (by norm_num)

/-- C6 counterexample: a call with `forecast_days = -1 < 0` (positive step
and tolerance) is not rejected with an error before computation — the
engine silently returns the normal value `some []`. -/
theorem risk_timeline_accepts_negative_horizon :
    ((-1 : ℝ) < 0) ∧ calculate_risk_timeline 0.2 [] (-1) 24 = some [] := by
  refine ⟨by norm_num, ?_⟩
  unfold calculate_risk_timeline
  rw [if_neg (by norm_num : (24 : ℝ) ≠ 0)]
  rw [show (-1 : ℝ) * 24 / 24 = -1 by norm_num]
  have h2 : pytrunc (-1 : ℝ) = -1 := by
    unfold pytrunc
    rw [if_pos (by norm_num : (-1 : ℝ) < 0)]
    rw [show ((-1 : ℝ)) = ((-1 : ℤ) : ℝ) by norm_num, Int.ceil_intCast]
  rw [h2]
  norm_num

/-- C6 (amended): the engine performs no configuration validation.  With
`step_hours > 0` and a horizon negative enough that
`forecast_days·24/step_hours ≤ -1`, the call silently returns `some []`
(an empty event list, no error), for *any* tolerance — nonpositive
tolerances included; the only failing configuration is `step_hours = 0`,
which surfaces as a division error (`none`) when the step count is
computed, not as an upfront rejection. -/
theorem risk_timeline_silent_on_bad_config (tol : ℝ) (sats : List OrbitalElements)
    (D H : ℝ) (hH : 0 < H) (hq : D * 24 / H ≤ -1) :
    calculate_risk_timeline tol sats D H = some [] ∧
    calculate_risk_timeline tol sats D 0 = none := by
  constructor
  · unfold calculate_risk_timeline
    rw [if_neg (ne_of_gt hH)]
    have hlt : D * 24 / H < 0 := lt_of_le_of_lt hq (by norm_num)
    have h2 : pytrunc (D * 24 / H) = ⌈D * 24 / H⌉ := by
      unfold pytrunc
      rw [if_pos hlt]
    rw [h2]
    have h3 : ⌈D * 24 / H⌉ ≤ -1 := Int.ceil_le.mpr (by exact_mod_cast hq)
    have h4 : (⌈D * 24 / H⌉ + 1).toNat = 0 := Int.toNat_of_nonpos (by omega)
    simp only [h4]
    simp
  · unfold calculate_risk_timeline
    rw [if_pos rfl]

/-- C6 witness: zero tolerance, negative horizon — accepted silently. -/
theorem risk_timeline_silent_on_bad_config_witness :
    calculate_risk_timeline 0 [] (-1) 24 = some [] ∧
    calculate_risk_timeline 0 [] (-1) 0 = none :=
  risk_timeline_silent_on_bad_config 0 [] (-1) 24 (by norm_num) (by norm_num)

/-- C7 (amended): the classification by distance `d` satisfies CRITICAL
iff `d < 0.5`, HIGH iff `0.5 ≤ d < 1.0`, MEDIUM iff `1.0 ≤ d < 2.5`, and
LOW iff `d ≥ 2.5` — the `else` branch puts **no upper bound** on LOW, so
the boundary event distance `d = 5` (producible by the forecaster, whose
node filter uses `≤ tolerance` with the default 5 km threshold) and any
larger distance are also classified LOW. -/
theorem risk_level_thresholds (d : ℝ) :
    (get_risk_level d = RiskLevel.CRITICAL ↔ d < 0.5) ∧
    (get_risk_level d = RiskLevel.HIGH ↔ 0.5 ≤ d ∧ d < 1.0) ∧
    (get_risk_level d = RiskLevel.MEDIUM ↔ 1.0 ≤ d ∧ d < 2.5) ∧
    (get_risk_level d = RiskLevel.LOW ↔ 2.5 ≤ d) := by
  refine ⟨?_, ?_, ?_, ?_⟩ <;>
    (unfold get_risk_level
     split_ifs with h1 h2 h3 <;>
       simp <;> push_neg at * <;>
       first
       | linarith
       | (constructor <;> linarith)
       | (intro hc; linarith))

/-- For a circular orbit the radius at any node direction is `a`. -/
theorem radiusAtNode_circular (el : OrbitalElements) (he : el.e = 0) (d : Vec3) :
    radiusAtNode el d = el.a := by
  unfold radiusAtNode
  rw [he]
  norm_num

/-- The pair `elW1`/`elW3` has a qualifying conjunction node whose radial
mismatch is exactly 5 km (the tolerance boundary). -/
theorem nodes_boundary_W1_W3 :
    ∃ nd ∈ calculate_conjunction_nodes 5 elW1 elW3, nd.distance_diff_km = 5 := by
  have hf : check_apogee_perigee_filter 5 elW1 elW3 := by
    norm_num [check_apogee_perigee_filter, elW1, elW3]
  have hL : find_intersection_line elW1 elW3 = some ⟨0, 0, 1⟩ := by
    norm_num [find_intersection_line, get_orbital_plane_normal, cross3, norm3, vdiv3,
      elW1, elW3, Real.sin_pi_div_two, Real.cos_pi_div_two, Real.sqrt_one]
  have hr : |radiusAtNode elW1 (smul3 1 ⟨0, 0, 1⟩) -
      radiusAtNode elW3 (smul3 1 ⟨0, 0, 1⟩)| = 5 := by
    rw [radiusAtNode_circular elW1 rfl, radiusAtNode_circular elW3 rfl]
    rw [show elW1.a = 7000 from rfl, show elW3.a = 7005 from rfl]
    rw [show (7000 : ℝ) - 7005 = -5 by norm_num, abs_neg]
    exact abs_of_nonneg (by norm_num)
  have hn : |elW1.n - elW3.n| = Real.pi / 43200 := by
    rw [show elW1.n = Real.pi / 43200 from rfl, show elW3.n = Real.pi / 21600 from rfl]
    rw [show Real.pi / 43200 - Real.pi / 21600 = -(Real.pi / 43200) by ring, abs_neg]
    exact abs_of_nonneg (by positivity)
  have hguard : (0.000000001 : ℝ) < |elW1.n - elW3.n| := by
    rw [hn]
    have h3 := Real.pi_gt_three
    linarith
  have hT : 2 * Real.pi / |elW1.n - elW3.n| / 86400 = 1 := by
    rw [hn]
    field_simp
    ring
  have hTge : (0.2 : ℝ) ≤ 2 * Real.pi / |elW1.n - elW3.n| / 86400 := by
    rw [hT]
    norm_num
  have hs := nodeForDirection_eq_some 5 elW1 elW3 (smul3 1 ⟨0, 0, 1⟩) hr.le hguard hTge
  exact ⟨_, (mem_calculate_conjunction_nodes 5 elW1 elW3 ⟨0, 0, 1⟩ _ hf hL).mpr
    (Or.inl hs), hr⟩

/-- The same boundary node for the pair in the opposite order. -/
theorem nodes_boundary_W3_W1 :
    ∃ nd ∈ calculate_conjunction_nodes 5 elW3 elW1, nd.distance_diff_km = 5 := by
  have hf : check_apogee_perigee_filter 5 elW3 elW1 := by
    norm_num [check_apogee_perigee_filter, elW1, elW3]
  have hL : find_intersection_line elW3 elW1 = some ⟨0, 0, -1⟩ := by
    norm_num [find_intersection_line, get_orbital_plane_normal, cross3, norm3, vdiv3,
      elW1, elW3, Real.sin_pi_div_two, Real.cos_pi_div_two, Real.sqrt_one]
  have hr : |radiusAtNode elW3 (smul3 1 ⟨0, 0, -1⟩) -
      radiusAtNode elW1 (smul3 1 ⟨0, 0, -1⟩)| = 5 := by
    rw [radiusAtNode_circular elW1 rfl, radiusAtNode_circular elW3 rfl]
    rw [show elW1.a = 7000 from rfl, show elW3.a = 7005 from rfl]
    rw [show (7005 : ℝ) - 7000 = 5 by norm_num]
    exact abs_of_nonneg (by norm_num)
  have hn : |elW3.n - elW1.n| = Real.pi / 43200 := by
    rw [show elW1.n = Real.pi / 43200 from rfl, show elW3.n = Real.pi / 21600 from rfl]
    rw [show Real.pi / 21600 - Real.pi / 43200 = Real.pi / 43200 by ring]
    exact abs_of_nonneg (by positivity)
  have hguard : (0.000000001 : ℝ) < |elW3.n - elW1.n| := by
    rw [hn]
    have h3 := Real.pi_gt_three
    linarith
  have hT : 2 * Real.pi / |elW3.n - elW1.n| / 86400 = 1 := by
    rw [hn]
    field_simp
    ring
  have hTge : (0.2 : ℝ) ≤ 2 * Real.pi / |elW3.n - elW1.n| / 86400 := by
    rw [hT]
    norm_num
  have hs := nodeForDirection_eq_some 5 elW3 elW1 (smul3 1 ⟨0, 0, -1⟩) hr.le hguard hTge
  exact ⟨_, (mem_calculate_conjunction_nodes 5 elW3 elW1 ⟨0, 0, -1⟩ _ hf hL).mpr
    (Or.inl hs), hr⟩

/-- C7 counterexample: the forecaster can emit a risk event whose distance
is exactly 5 km (the node filter accepts `distance ≤ tolerance`, and the
collision-watch engine runs the forecaster with `tolerance_km = 5`); that
event is classified LOW by `get_risk_level`, although `2.5 ≤ d < 5` fails
at `d = 5` — so "LOW iff `2.5 ≤ d < 5`" is false for produced events. -/
theorem risk_forecast_event_at_five_km_low :
    (∃ evs, calculate_risk_timeline 5 [elW1, elW3] 0 12 = some evs ∧
       ∃ e ∈ evs, e.distance_km = 5 ∧ get_risk_level e.distance_km = RiskLevel.LOW) ∧
    ¬((2.5 : ℝ) ≤ 5 ∧ (5 : ℝ) < 5) := by
  refine ⟨?_, by norm_num⟩
  have htime : calculate_risk_timeline 5 [elW1, elW3] 0 12 =
      some (stepEvents 5 [elW1, elW3] 0) := by
    unfold calculate_risk_timeline
    rw [if_neg (by norm_num : (12 : ℝ) ≠ 0)]
    have h0 : pytrunc ((0 : ℝ) * 24 / 12) = 0 := by
      unfold pytrunc
      rw [if_neg (by norm_num)]
      norm_num
    simp only [h0]
    rw [show ((0 : ℤ) + 1).toNat = 1 from rfl]
    rw [foldl_stepFold_eq 5 12 [elW1, elW3] 0 []]
    simp only [List.nil_append]
    rw [show List.range 1 = [0] from rfl]
    simp
  refine ⟨stepEvents 5 [elW1, elW3] 0, htime, ?_⟩
  have hchk : check_apogee_perigee_filter 5 (([elW1, elW3]).getD 0 default)
      (([elW1, elW3]).getD 1 default) := by
    rw [show ([elW1, elW3] : List OrbitalElements).getD 0 default = elW1 from rfl,
      show ([elW1, elW3] : List OrbitalElements).getD 1 default = elW3 from rfl]
    norm_num [check_apogee_perigee_filter, elW1, elW3]
  have hpair := sweepPairs_complete 5 [elW1, elW3] 0 1 (by norm_num) (by norm_num) hchk
  have hlow : get_risk_level 5 = RiskLevel.LOW := by
    unfold get_risk_level
    norm_num
  rcases hpair with hp | hp
  · obtain ⟨nd, hnd, hd⟩ := nodes_boundary_W1_W3
    refine ⟨⟨0, 0, 1, nd.distance_diff_km, nd.f_nc⟩, ?_, hd, ?_⟩
    · unfold stepEvents
      apply List.mem_flatMap.mpr
      refine ⟨(0, 1), hp, ?_⟩
      show (⟨0, 0, 1, nd.distance_diff_km, nd.f_nc⟩ : RiskEvent) ∈
        (calculate_conjunction_nodes 5 elW1 elW3).map
          (fun nd => ⟨0, 0, 1, nd.distance_diff_km, nd.f_nc⟩)
      exact List.mem_map.mpr ⟨nd, hnd, rfl⟩
    · show get_risk_level nd.distance_diff_km = RiskLevel.LOW
      rw [hd]
      exact hlow
  · obtain ⟨nd, hnd, hd⟩ := nodes_boundary_W3_W1
    refine ⟨⟨0, 1, 0, nd.distance_diff_km, nd.f_nc⟩, ?_, hd, ?_⟩
    · unfold stepEvents
      apply List.mem_flatMap.mpr
      refine ⟨(1, 0), hp, ?_⟩
      show (⟨0, 1, 0, nd.distance_diff_km, nd.f_nc⟩ : RiskEvent) ∈
        (calculate_conjunction_nodes 5 elW3 elW1).map
          (fun nd => ⟨0, 1, 0, nd.distance_diff_km, nd.f_nc⟩)
      exact List.mem_map.mpr ⟨nd, hnd, rfl⟩
    · show get_risk_level nd.distance_diff_km = RiskLevel.LOW
      rw [hd]
      exact hlow
